import Mathlib

/-!
Verification of the smali_patch repository (src/patch_helper.py and
src/smali_patch.py) against its natural-language specification.

The Python code is shallowly embedded: a target file is a `List String`
(one entry per line, line terminators already stripped, as produced by
`line.rstrip('\r\n')` in the sources); edit operations are tagged pairs
mirroring the `('+'|'-'|' ', str)` tuples; fallible appliers return
`Option (List String)` mirroring the `Optional[List[str]]` returns with
`none` for Python `None`.  Python string indexing and slicing, including
negative indices, are modelled explicitly (`pyIdx`, `pySlice`).  The
compiled regular expressions built by `method_sig_to_regex` are abstracted
as predicates `String → Bool` passed exactly where the Python passes the
compiled pattern object; the two concrete regexes inside `normalize`
(whitespace collapsing and register-token generalization) are embedded as
executable character-list scanners.
-/

/-- Model of the word-character class of the `\b` and `\w` regex semantics
used by `normalize` (ASCII range, matching the smali inputs). -/
def isWordChar (c : Char) : Bool := c.isAlphanum || c == '_'

/-- Model of Python `str.strip()` on the character list of a line. -/
def stripChars (l : List Char) : List Char :=
  ((l.dropWhile Char.isWhitespace).reverse.dropWhile Char.isWhitespace).reverse

/-- Model of Python `str.strip()` at the `String` level. -/
def pyStrip (s : String) : String := String.mk (stripChars s.data)

mutual
/-- Model of `re.sub(r'\s+', ' ', line)`: every maximal run of whitespace
becomes a single space.  `collapseWs` scans outside a run. -/
def collapseWs : List Char → List Char
  | [] => []
  | c :: rest => if c.isWhitespace then ' ' :: skipWs rest else c :: collapseWs rest

/-- Inside a whitespace run of `collapseWs`: drop until the run ends. -/
def skipWs : List Char → List Char
  | [] => []
  | c :: rest => if c.isWhitespace then skipWs rest else c :: collapseWs rest
end

/-- Lookbehind plus leading word boundary of `(?<!\:)\b([vp])\d+\b`:
a match may start after `prev` iff `prev` is absent or a non-word
character other than a colon. -/
def boundaryOk : Option Char → Bool
  | none => true
  | some c => !isWordChar c && c != ':'

/-- Whether a character list starts with a decimal digit. -/
def headIsDigit : List Char → Bool
  | [] => false
  | c :: _ => c.isDigit

mutual
/-- Model of `re.sub(r'(?<!\:)\b([vp])\d+\b', r'\1X', line)`: left-to-right
scan over the original characters, `prev` being the character just before
the current position (for the lookbehind and the leading `\b`). -/
def regSub (prev : Option Char) : List Char → List Char
  | [] => []
  | c :: rest =>
      if (c == 'v' || c == 'p') && boundaryOk prev && headIsDigit rest then
        regDigits c [] rest
      else c :: regSub (some c) rest

/-- Inside a candidate register token of `regSub`: `letter` is the `v`/`p`,
`acc` the digits read so far (reversed).  On a trailing word character the
whole candidate fails (`\d+\b` cannot match) and no later position inside
it can start a match, so the scan resumes after it. -/
def regDigits (letter : Char) (acc : List Char) : List Char → List Char
  | [] => [letter, 'X']
  | c :: rest =>
      if c.isDigit then regDigits letter (c :: acc) rest
      else if isWordChar c then letter :: (acc.reverse ++ c :: regSub (some c) rest)
      else letter :: 'X' :: c :: regSub (some c) rest
end

/-- The ignorable line prefixes of `normalize` in patch_helper.py:
`('.line', '#', '.source', '.prologue', '.epilogue')`. -/
def ignorablePrefixes : List (List Char) :=
  [".line".data, "#".data, ".source".data, ".prologue".data, ".epilogue".data]

namespace PatchHelper

/-- Embedding of `normalize(line, non_strict)` from patch_helper.py:
strip; return `none` for empty lines and ignorable prefixes; collapse
internal whitespace; in non-strict mode generalize register tokens. -/
def normalize (line : String) (nonStrict : Bool) : Option String :=
  let l := stripChars line.data
  if l.isEmpty || ignorablePrefixes.any (fun q => q.isPrefixOf l) then none
  else
    let l2 := collapseWs l
    some (String.mk (if nonStrict then regSub none l2 else l2))

end PatchHelper

/-- Model of a Python index used in a slice over a list of length `n`
(negative values count from the end, results clamped into `[0, n]`). -/
def pyIdx (n : Nat) (i : Int) : Nat :=
  if 0 ≤ i then min i.toNat n else n - min (-i).toNat n

/-- Model of the Python slice `l[a:b]`. -/
def pySlice {α : Type} (l : List α) (a b : Int) : List α :=
  (l.take (pyIdx l.length b)).drop (pyIdx l.length a)

/-- Model of the Python slice `l[a:]`. -/
def pyDropFrom {α : Type} (l : List α) (a : Int) : List α :=
  l.drop (pyIdx l.length a)

/-- Model of the Python indexing `l[i]` (with negative indices counting
from the end); `d` is returned on the out-of-range cases Python raises on. -/
def pyGetD (l : List String) (i : Int) (d : String) : String :=
  l.getD (pyIdx l.length i) d

/-- Model of a Python `for i in range(start, start + fuel)` loop with a
`break`-on-first-hit body: the least `i` in the range satisfying `q`. -/
def scanFrom (q : Nat → Bool) : Nat → Nat → Option Nat
  | _, 0 => none
  | i, fuel + 1 => if q i then some i else scanFrom q (i + 1) fuel

/-- The three operation tags of a PATCH block: `'+'`, `'-'`, `' '`. -/
inductive OpTag
  | add
  | del
  | ctx
deriving DecidableEq

/-- Embedding of the `PatchOperation = Tuple[Literal['+','-',' '], str]`
type alias shared by both source files. -/
def PatchOperation : Type := OpTag × String

/-- Shared embedding of `find_method_range(lines, pattern)` from both
sources: the inner `for j in range(i + 1, len(lines))` scan for the
`'.end method'` sentinel, returning its index or `-1`. -/
def fmrEndScan (isClean : Bool) : List String → Nat → Int
  | [], _ => -1
  | l :: rest, j =>
      if (if isClean then l else pyStrip l) == ".end method" then (j : Int)
      else fmrEndScan isClean rest (j + 1)

/-- Shared embedding of the outer scan of `find_method_range`: the first
line whose (optionally stripped) text matches the compiled signature
pattern, abbreviated here by the predicate `q`. -/
def fmrScan (q : String → Bool) (isClean : Bool) : List String → Nat → Int × Int
  | [], _ => (-1, -1)
  | l :: rest, i =>
      if q (if isClean then l else pyStrip l) then ((i : Int), fmrEndScan isClean rest (i + 1))
      else fmrScan q isClean rest (i + 1)

namespace PatchHelper

/-- Embedding of `find_method_range` from patch_helper.py (always strips
the candidate lines before matching). -/
def find_method_range (lines : List String) (q : String → Bool) : Int × Int :=
  fmrScan q false lines 0

/-- Step 1 of `_apply_patch`: the fingerprint, i.e. the normalized forms
of all context and delete operation lines that normalize to a meaningful
line (`if norm_line:` drops the ignorable ones). -/
def fingerprintOf (ops : List PatchOperation) (ns : Bool) : List String :=
  ops.filterMap fun o =>
    match o.1 with
    | OpTag.add => none
    | _ => normalize o.2 ns

/-- The inner `while` of step 2 of `_apply_patch`: try to consume the
whole fingerprint starting at the given target suffix, skipping target
lines that normalize to `None` and breaking on the first mismatch. -/
def fpMatchAux (ns : Bool) : List String → List String → Bool
  | _, [] => true
  | [], _ :: _ => false
  | t :: tgt, f :: fp =>
      match normalize t ns with
      | none => fpMatchAux ns tgt (f :: fp)
      | some nt => nt == f && fpMatchAux ns tgt fp

/-- Step 2 of `_apply_patch`: the `for i in range(len(lines))` scan for
the first target index where the fingerprint matches (`-1` becomes
`none`). -/
def findMatchStart (lines : List String) (fp : List String) (ns : Bool) : Option Nat :=
  scanFrom (fun i => fpMatchAux ns (lines.drop i) fp) 0 lines.length

/-- Whether a target line is skipped by the apply loop of `_apply_patch`
(`not normalize(lines[target_idx], non_strict)`). -/
def skippable (ns : Bool) (t : String) : Bool := (normalize t ns).isNone

/-- Step 3 of `_apply_patch`: the `while op_idx < len(operations)` apply
loop, acting on the target suffix that starts at the matched index.  An
add emits its line; a context or delete eats ignorable target lines
(keeping them only for context), then consumes the next meaningful target
line (keeping it only for context), failing if the target is exhausted.
The base case appends the remaining target lines
(`modified_lines.extend(lines[target_idx:])`). -/
def applyOps (ns : Bool) : List PatchOperation → List String → Option (List String)
  | [], tgt => some tgt
  | (OpTag.add, l) :: ops, tgt => (applyOps ns ops tgt).map fun r => l :: r
  | (OpTag.ctx, _) :: ops, tgt =>
      match tgt.dropWhile (skippable ns) with
      | [] => none
      | t :: rest =>
          (applyOps ns ops rest).map fun r => tgt.takeWhile (skippable ns) ++ t :: r
  | (OpTag.del, _) :: ops, tgt =>
      match tgt.dropWhile (skippable ns) with
      | [] => none
      | _ :: rest => applyOps ns ops rest

/-- Embedding of `_apply_patch(lines, action, non_strict)` from
patch_helper.py: empty fingerprint fails; otherwise scan for the first
fingerprint match and run the apply loop there, keeping the lines before
the match untouched. -/
def apply_patch (lines : List String) (ops : List PatchOperation) (ns : Bool) :
    Option (List String) :=
  if fingerprintOf ops ns = [] then none
  else
    match findMatchStart lines (fingerprintOf ops ns) ns with
    | none => none
    | some i => (applyOps ns ops (lines.drop i)).map fun r => lines.take i ++ r

/-- Embedding of `_apply_replace(lines, action)` from patch_helper.py.
Only the start index is checked against `-1`; the end index is used as a
Python slice bound as-is, so a missing `.end method` sentinel makes
`lines[end_idx:]` the one-element slice `lines[-1:]`. -/
def apply_replace (lines : List String) (sigq : String → Bool) (content : List String) :
    Option (List String) :=
  let r := find_method_range lines sigq
  if r.1 = -1 then none
  else some (lines.take (r.1.toNat + 1) ++ content ++ pyDropFrom lines r.2)

/-- The backward scan of `_apply_create_method` for the last line whose
stripped text starts with `.end class` (Python scans from the end and
stops at the first hit, i.e. the last index). -/
def lecAux : List String → Nat → Option Nat → Option Nat
  | [], _, acc => acc
  | l :: rest, i, acc =>
      lecAux rest (i + 1)
        (if ".end class".data.isPrefixOf (pyStrip l).data then some i else acc)

/-- Insert position of `_apply_create_method`: last `.end class` line. -/
def lastEndClassIdx (lines : List String) : Option Nat := lecAux lines 0 none

/-- Embedding of `_apply_create_method(lines, action)` from
patch_helper.py: insert the body before the `.end class` sentinel,
preceded by a blank line when `lines[insert_pos - 1]` is non-blank
(Python negative indexing applies when `insert_pos` is 0). -/
def apply_create_method (lines : List String) (content : List String) :
    Option (List String) :=
  match lastEndClassIdx lines with
  | none => none
  | some ip =>
      let newContent :=
        if pyStrip (pyGetD lines ((ip : Int) - 1) "") ≠ "" then "" :: content else content
      some (lines.take ip ++ newContent ++ lines.drop ip)

/-- The three action variants dispatched by the loop of
`apply_file_patch`.  The `method_sig` string of a PATCH action is carried
(as its compiled pattern abstraction) to show where it is and is not
used. -/
inductive PHAction
  | replace (sigq : String → Bool) (content : List String)
  | patchA (sigq : Option (String → Bool)) (ops : List PatchOperation)
  | createMethod (content : List String)

/-- The action dispatch inside the loop of `apply_file_patch`
(patch_helper.py lines 212-218).  `_apply_patch` receives only
`action['operations']`: the signature of a PATCH action is ignored. -/
def applyPHAction (buf : List String) (ns : Bool) : PHAction → Option (List String)
  | PHAction.replace sigq content => apply_replace buf sigq content
  | PHAction.patchA _ ops => apply_patch buf ops ns
  | PHAction.createMethod content => apply_create_method buf content

/-- The action loop of `apply_file_patch`: thread the buffer through the
actions in script order, stopping at the first failure. -/
def applyActions (ns : Bool) : List PHAction → List String → Option (List String)
  | [], buf => some buf
  | a :: rest, buf =>
      match applyPHAction buf ns a with
      | none => none
      | some buf2 => applyActions ns rest buf2

/-- The result categories of patch_helper.py (`ApplyResult`). -/
inductive ApplyResult
  | applied
  | created
  | skipped
  | failed
  | hunk_failed
deriving DecidableEq

/-- Embedding of `apply_file_patch(work_dir, patch, non_strict)` with the
file I/O made explicit: the input is the list of lines read from the
target file, and the second component of the result is the content
written back to disk (`none` means no write at all).  The source returns
`"hunk_failed"` as soon as an action fails (before any write), returns
`"skipped"` without writing when the final buffer equals the original,
and otherwise writes the new buffer and returns `"applied"`. -/
def apply_file_patch (original : List String) (acts : List PHAction) (ns : Bool) :
    ApplyResult × Option (List String) :=
  match applyActions ns acts original with
  | none => (ApplyResult.hunk_failed, none)
  | some m =>
      if m = original then (ApplyResult.skipped, none) else (ApplyResult.applied, some m)

/-- Embedding of the `BLOCK_TERMINATORS` constant (note the trailing
spaces of the first three entries, kept exactly as in the source). -/
def BLOCK_TERMINATORS : List String :=
  ["FILE ", "CREATE ", "REPLACE ", "PATCH", "CREATE_METHOD", "END"]

/-- The terminator test of `read_content_block`:
`line_strip == kw or line_strip.startswith(kw + ' ')`. -/
def isBlockTerminator (lineStrip : String) : Bool :=
  BLOCK_TERMINATORS.any fun kw =>
    lineStrip == kw || (kw ++ " ").data.isPrefixOf lineStrip.data

/-- The scan of `read_content_block` over the remaining lines, carrying
the running index `i`: capture verbatim until a terminator; consume the
terminator only when it is exactly `END`. -/
def rcbAux : List String → Nat → List String × Nat
  | [], i => ([], i)
  | l :: rest, i =>
      if isBlockTerminator (pyStrip l) then
        if pyStrip l == "END" then ([], i + 1) else ([], i)
      else
        let r := rcbAux rest (i + 1)
        (l :: r.1, r.2)

/-- Embedding of `read_content_block(lines, start_index)` from
patch_helper.py. -/
def read_content_block (lines : List String) (startIndex : Nat) : List String × Nat :=
  rcbAux (lines.drop startIndex) startIndex

end PatchHelper

namespace SmaliPatch

/-- The keep condition of `clean_smali_lines` in smali_patch.py (also used
for the patch-side counts): stripped line non-empty and not starting with
`'.line '`. -/
def cleanKeep (l : String) : Bool :=
  pyStrip l != "" && !(".line ".data.isPrefixOf (pyStrip l).data)

/-- The indexed scan of `clean_smali_lines`. -/
def cslAux : List String → Nat → List String × List Nat
  | [], _ => ([], [])
  | l :: rest, i =>
      let r := cslAux rest (i + 1)
      if cleanKeep l then (pyStrip l :: r.1, i :: r.2) else r

/-- Embedding of `clean_smali_lines(lines)` from smali_patch.py: the
stripped meaningful lines plus the map back to original indices. -/
def clean_smali_lines (lines : List String) : List String × List Nat :=
  cslAux lines 0

/-- Embedding of the `patch_context_clean` comprehension of
`apply_patch_action`: stripped context-operation lines that are non-empty
and not `.line` directives. -/
def patchContextClean (ops : List PatchOperation) : List String :=
  ops.filterMap fun o =>
    match o.1 with
    | OpTag.ctx => if cleanKeep o.2 then some (pyStrip o.2) else none
    | _ => none

/-- Embedding of the `hunk_clean_len` count of `apply_patch_action`: all
operations (of any tag) whose line is meaningful after cleaning. -/
def hunkCleanLen (ops : List PatchOperation) : Nat :=
  (ops.filter fun o => cleanKeep o.2).length

/-- The replacement lines spliced in by `apply_patch_action`:
`line for op, line in operations if op in (' ', '+')`. -/
def keptLines (ops : List PatchOperation) : List String :=
  ops.filterMap fun o =>
    match o.1 with
    | OpTag.del => none
    | _ => some o.2

/-- Embedding of `find_context(search_lines, context_lines)` from
smali_patch.py: first index where the context lines occur contiguously,
`-1` when absent. -/
def find_context (searchLines : List String) (contextLines : List String) : Int :=
  if contextLines = [] then -1
  else
    match scanFrom (fun i => (searchLines.drop i).take contextLines.length == contextLines)
        0 (searchLines.length + 1 - contextLines.length) with
    | some i => (i : Int)
    | none => -1

/-- Embedding of `find_method_range(lines, pattern, is_clean)` from
smali_patch.py. -/
def find_method_range (lines : List String) (q : String → Bool) (isClean : Bool) :
    Int × Int :=
  fmrScan q isClean lines 0

/-- The tail of `apply_patch_action` after the context search: given the
found clean index `cs` and the scope offset, map the clean hunk back to
original line indices and splice `keptLines` in (smali_patch.py lines
294-323).  Fails only when `cs = -1`. -/
def applyAtContext (smaliLines : List String) (ops : List PatchOperation)
    (smaliMap : List Nat) (cs : Int) (offset : Nat) : Option (List String) :=
  if cs = -1 then none
  else
    let csc := cs.toNat + offset
    let hcl := hunkCleanLen ops
    let originalStart := smaliMap.getD csc 0
    let originalEnd :=
      if smaliMap.length ≤ csc + hcl - 1 then smaliLines.length
      else if csc + hcl < smaliMap.length then smaliMap.getD (csc + hcl) 0
      else smaliLines.length
    some (smaliLines.take originalStart ++ keptLines ops ++ smaliLines.drop originalEnd)

/-- Embedding of `apply_patch_action(smali_lines, action)` from
smali_patch.py.  With a signature the clean lines are pre-scoped to the
resolved method range (`smali_clean[method_start : method_end + 1]`) and
the context is searched only there; a missing method fails the action. -/
def apply_patch_action (smaliLines : List String) (sigq : Option (String → Bool))
    (ops : List PatchOperation) : Option (List String) :=
  if patchContextClean ops = [] then none
  else
    match sigq with
    | none =>
        applyAtContext smaliLines ops (clean_smali_lines smaliLines).2
          (find_context (clean_smali_lines smaliLines).1 (patchContextClean ops)) 0
    | some q =>
        if (find_method_range (clean_smali_lines smaliLines).1 q true).1 = -1 then none
        else
          applyAtContext smaliLines ops (clean_smali_lines smaliLines).2
            (find_context
              (pySlice (clean_smali_lines smaliLines).1
                (find_method_range (clean_smali_lines smaliLines).1 q true).1
                ((find_method_range (clean_smali_lines smaliLines).1 q true).2 + 1))
              (patchContextClean ops))
            (find_method_range (clean_smali_lines smaliLines).1 q true).1.toNat

end SmaliPatch


/-! ## Helper lemmas -/

/-- `scanFrom` returns the least index in its range satisfying `q`. -/
theorem scanFrom_spec (q : Nat → Bool) :
    ∀ fuel i r, scanFrom q i fuel = some r →
      q r = true ∧ i ≤ r ∧ ∀ j, i ≤ j → j < r → q j = false := by
  intro fuel
  induction fuel with
  | zero => intro i r h; simp [scanFrom] at h
  | succ n ih =>
    intro i r h
    rw [scanFrom] at h
    by_cases hq : q i
    · rw [if_pos hq] at h
      cases h
      exact ⟨hq, Nat.le_refl _, fun j h1 h2 => absurd (Nat.lt_of_lt_of_le h2 h1) (Nat.lt_irrefl _)⟩
    · rw [if_neg hq] at h
      obtain ⟨hr, hle, hmin⟩ := ih (i + 1) r h
      refine ⟨hr, Nat.le_trans (Nat.le_succ i) hle, fun j h1 h2 => ?_⟩
      rcases Nat.eq_or_lt_of_le h1 with h3 | h3
      · rw [← h3]; exact Bool.eq_false_iff.mpr hq
      · exact hmin j h3 h2

/-- The action loop distributes over list append (running the first part,
then the second on its output). -/
theorem applyActions_append (ns : Bool) (l1 l2 : List PatchHelper.PHAction)
    (buf : List String) :
    PatchHelper.applyActions ns (l1 ++ l2) buf =
      (PatchHelper.applyActions ns l1 buf).bind
        (fun b => PatchHelper.applyActions ns l2 b) := by
  induction l1 generalizing buf with
  | nil => simp [PatchHelper.applyActions]
  | cons a rest ih =>
    simp only [List.cons_append, PatchHelper.applyActions]
    cases PatchHelper.applyPHAction buf ns a with
    | none => simp
    | some b2 => simp [ih]

/-- When every operation is an add or normalizes to an ignorable line,
the fingerprint of `_apply_patch` is empty. -/
theorem fingerprintOf_eq_nil (ops : List PatchOperation) (ns : Bool)
    (h : ∀ o ∈ ops, o.1 = OpTag.add ∨ PatchHelper.normalize o.2 ns = none) :
    PatchHelper.fingerprintOf ops ns = [] := by
  rw [PatchHelper.fingerprintOf, List.filterMap_eq_nil_iff]
  intro o ho
  obtain ⟨tag, s⟩ := o
  cases tag with
  | add => rfl
  | del =>
    rcases h _ ho with h1 | h1
    · exact absurd h1 (by simp)
    · simpa using h1
  | ctx =>
    rcases h _ ho with h1 | h1
    · exact absurd h1 (by simp)
    · simpa using h1

/-- The apply loop of `_apply_patch` returns its target unchanged when
every operation is a context operation. -/
theorem applyOps_all_ctx_id (ns : Bool) (ops : List PatchOperation)
    (h : ∀ o ∈ ops, o.1 = OpTag.ctx) :
    ∀ tgt out, PatchHelper.applyOps ns ops tgt = some out → out = tgt := by
  induction ops with
  | nil =>
    intro tgt out hh
    simp only [PatchHelper.applyOps, Option.some.injEq] at hh
    exact hh.symm
  | cons o rest ih =>
    intro tgt out hh
    obtain ⟨tag, l⟩ := o
    have htag : tag = OpTag.ctx := h (tag, l) (List.mem_cons_self _ _)
    subst htag
    simp only [PatchHelper.applyOps] at hh
    cases hd : tgt.dropWhile (PatchHelper.skippable ns) with
    | nil => rw [hd] at hh; simp at hh
    | cons t rest2 =>
      rw [hd] at hh
      simp only [Option.map_eq_some'] at hh
      obtain ⟨r, hap, hout⟩ := hh
      have hr := ih (fun o ho => h o (List.mem_cons_of_mem _ ho)) rest2 r hap
      subst hr
      have hsplit := List.takeWhile_append_dropWhile (PatchHelper.skippable ns) tgt
      rw [hd] at hsplit
      rw [← hout]
      exact hsplit

/-! ## Claim theorems -/

/-- C1: evaluation of `_apply_patch` at inputs with an ignorable context
or delete operation line.  The fingerprint scan matches the hunk at
target index 0, yet the apply loop consumes one meaningful target line
per ignorable context operation — failing a hunk whose fingerprint was
found — and an ignorable delete operation removes a meaningful target
line the fingerprint never matched.  This contradicts the claim that such
an operation advances only the operation cursor, and contradicts the
scanning phase of the same function, which excludes ignorable operation
lines from the fingerprint. -/
theorem c1_ignorable_op_consumes_target_line :
    PatchHelper.findMatchStart [".locals 1", "return-void"]
      (PatchHelper.fingerprintOf
        [(OpTag.ctx, ".locals 1"), (OpTag.ctx, ""), (OpTag.ctx, "return-void")] false)
      false = some 0
    ∧ PatchHelper.apply_patch [".locals 1", "return-void"]
        [(OpTag.ctx, ".locals 1"), (OpTag.ctx, ""), (OpTag.ctx, "return-void")] false = none
    ∧ PatchHelper.apply_patch ["a", "b", "c"]
        [(OpTag.ctx, "a"), (OpTag.del, "")] false = some ["a", "c"] :=
  ⟨by decide, by decide, by decide⟩

/-- C2 counterexample: for a Delete operation the intervening ignorable
target line `"# c"` is not copied into the output — the claim says the
result would be `["a", "# c", "z"]`, but the code drops the comment line
and produces `["a", "z"]`. -/
theorem c2_delete_drops_ignorable_counterexample :
    PatchHelper.apply_patch ["a", "# c", "b", "z"]
      [(OpTag.ctx, "a"), (OpTag.del, "b")] false = some ["a", "z"] := by decide

/-- C2 (amended): while advancing to the next meaningful target line, the
intervening ignorable target lines are copied unchanged only for a
Context operation; a Delete operation drops them from the output together
with the matched line itself. -/
theorem ctx_keeps_del_drops_intervening_ignorables (ns : Bool) (l : String)
    (ops : List PatchOperation) (tgt rest : List String) (t : String)
    (hsplit : tgt.dropWhile (PatchHelper.skippable ns) = t :: rest) :
    PatchHelper.applyOps ns ((OpTag.ctx, l) :: ops) tgt
      = (PatchHelper.applyOps ns ops rest).map
          (fun r => tgt.takeWhile (PatchHelper.skippable ns) ++ t :: r)
    ∧ PatchHelper.applyOps ns ((OpTag.del, l) :: ops) tgt
      = PatchHelper.applyOps ns ops rest := by
  constructor
  · simp only [PatchHelper.applyOps, hsplit]
  · simp only [PatchHelper.applyOps, hsplit]

/-- C2 witness: the amended statement at a concrete input. -/
theorem ctx_keeps_del_drops_intervening_ignorables_witness :
    PatchHelper.applyOps false ((OpTag.ctx, "b") :: []) ["# c", "b", "z"]
      = (PatchHelper.applyOps false [] ["z"]).map
          (fun r => ["# c", "b", "z"].takeWhile (PatchHelper.skippable false) ++ "b" :: r)
    ∧ PatchHelper.applyOps false ((OpTag.del, "b") :: []) ["# c", "b", "z"]
      = PatchHelper.applyOps false [] ["z"] :=
  ctx_keeps_del_drops_intervening_ignorables false "b" [] ["# c", "b", "z"] ["z"] "b"
    (by decide)

/-- C5 counterexample: a PATCH action whose operations have no Context or
Delete line normalizing to a meaningful line is rejected with a hunk
failure, not applied globally — the claim says the result would be
`some ["a", "b", "x"]`. -/
theorem no_anchor_counterexample :
    PatchHelper.apply_patch ["a", "b"] [(OpTag.ctx, ""), (OpTag.add, "x")] false = none := by
  decide

/-- C5 (amended): a PATCH action whose operations contain no Context or
Delete line that normalizes to non-ignorable is treated as an error:
`_apply_patch` reports a hunk failure and returns no buffer.  No global
no-context application mode exists in the code. -/
theorem patch_without_anchor_is_rejected (lines : List String)
    (ops : List PatchOperation) (ns : Bool)
    (h : ∀ o ∈ ops, o.1 = OpTag.add ∨ PatchHelper.normalize o.2 ns = none) :
    PatchHelper.apply_patch lines ops ns = none := by
  rw [PatchHelper.apply_patch, fingerprintOf_eq_nil ops ns h]
  simp

/-- C5 witness: the amended statement at a concrete input. -/
theorem patch_without_anchor_is_rejected_witness :
    PatchHelper.apply_patch ["y"] [(OpTag.add, "z")] false = none :=
  patch_without_anchor_is_rejected ["y"] [(OpTag.add, "z")] false (by decide)

/-- C7: evaluation of `find_method_range` and `_apply_replace` at a
target whose signature line has no following `.end method` sentinel.  The
resolver returns `(0, -1)`, but `_apply_replace` checks only the start
index against `-1` and then uses `-1` as the Python slice bound
`lines[-1:]`, returning a rewritten buffer that keeps the last line —
instead of failing as the claim requires. -/
theorem replace_missing_end_sentinel_splices :
    PatchHelper.find_method_range [".method foo", "body"]
      (fun l => l == ".method foo") = (0, -1)
    ∧ PatchHelper.apply_replace [".method foo", "body"]
        (fun l => l == ".method foo") ["X"] = some [".method foo", "X", "body"] :=
  ⟨by decide, by decide⟩

/-- C8: evaluation of `read_content_block`.  `END`, `PATCH` and
`CREATE_METHOD` terminate a content block as the claim describes, but the
`FILE `, `CREATE ` and `REPLACE ` entries of `BLOCK_TERMINATORS` carry a
trailing space, so the test `line_strip == kw or
line_strip.startswith(kw + ' ')` only fires on those keywords followed by
two spaces: an ordinary `REPLACE <sig>` line is captured as content
instead of terminating the block. -/
theorem content_block_terminator_evaluation :
    PatchHelper.read_content_block ["body", "REPLACE foo()V", "tail"] 0
      = (["body", "REPLACE foo()V", "tail"], 3)
    ∧ PatchHelper.read_content_block ["body", "PATCH sig", "tail"] 0 = (["body"], 1)
    ∧ PatchHelper.read_content_block ["body", "END", "tail"] 0 = (["body"], 2)
    ∧ PatchHelper.read_content_block ["body", "CREATE_METHOD", "x"] 0 = (["body"], 1)
    ∧ PatchHelper.read_content_block ["body", "FILE a.smali", "x"] 0
      = (["body", "FILE a.smali", "x"], 3) :=
  ⟨by decide, by decide, by decide, by decide, by decide⟩

/-- C9: in non-strict mode `normalize` rewrites standalone `v`/`p`
register tokens to a canonical placeholder, so differently numbered
registers normalize identically, while in strict mode they stay distinct;
a label token directly after a colon is never rewritten in either mode. -/
theorem normalize_register_token_generalization :
    PatchHelper.normalize "const/4 v0, 0x1" true
      = PatchHelper.normalize "const/4 v7, 0x1" true
    ∧ PatchHelper.normalize "const/4 v0, 0x1" false
      ≠ PatchHelper.normalize "const/4 v7, 0x1" false
    ∧ PatchHelper.normalize ":v0_start" true = some ":v0_start"
    ∧ PatchHelper.normalize ":v0_start" false = some ":v0_start" :=
  ⟨by decide, by decide, by decide, by decide⟩

/-- C3 counterexample: in the patch_helper.py engine the signature of a
PATCH action is ignored by `_apply_patch` — here the signature pattern
matches no line at all, yet the action succeeds instead of failing with
method-not-found, so matching is not restricted to any method range. -/
theorem patch_signature_ignored_counterexample :
    PatchHelper.applyPHAction ["a", "b"] false
      (PatchHelper.PHAction.patchA (some fun _ => false) [(OpTag.ctx, "a")])
      = some ["a", "b"] := by decide

/-- C3 (amended): patch_helper.py ignores the `method_sig` of a PATCH
action entirely; the claimed scoping holds in smali_patch.py instead:
when `apply_patch_action` runs with a signature and does not fail, the
method range was resolved in the cleaned lines and the context
fingerprint was found inside the pre-scoped slice
`smali_clean[method_start : method_end + 1]`. -/
theorem patch_action_signature_scoping (lines : List String) (q : String → Bool)
    (ops : List PatchOperation)
    (h : SmaliPatch.apply_patch_action lines (some q) ops ≠ none) :
    (SmaliPatch.find_method_range (SmaliPatch.clean_smali_lines lines).1 q true).1 ≠ -1
    ∧ SmaliPatch.find_context
        (pySlice (SmaliPatch.clean_smali_lines lines).1
          (SmaliPatch.find_method_range (SmaliPatch.clean_smali_lines lines).1 q true).1
          ((SmaliPatch.find_method_range (SmaliPatch.clean_smali_lines lines).1 q true).2 + 1))
        (SmaliPatch.patchContextClean ops) ≠ -1 := by
  simp only [SmaliPatch.apply_patch_action] at h
  by_cases hp : SmaliPatch.patchContextClean ops = []
  · rw [if_pos hp] at h
    exact absurd rfl h
  · rw [if_neg hp] at h
    by_cases hm :
        (SmaliPatch.find_method_range (SmaliPatch.clean_smali_lines lines).1 q true).1 = -1
    · rw [if_pos hm] at h
      exact absurd rfl h
    · rw [if_neg hm] at h
      refine ⟨hm, ?_⟩
      intro hc
      rw [SmaliPatch.applyAtContext, if_pos hc] at h
      exact h rfl

/-- C3 witness: the amended statement at a concrete input on which the
scoped action succeeds. -/
theorem patch_action_signature_scoping_witness :
    (SmaliPatch.find_method_range
        (SmaliPatch.clean_smali_lines [".method foo", ".locals 1", ".end method"]).1
        (fun l => l == ".method foo") true).1 ≠ -1
    ∧ SmaliPatch.find_context
        (pySlice (SmaliPatch.clean_smali_lines [".method foo", ".locals 1", ".end method"]).1
          (SmaliPatch.find_method_range
            (SmaliPatch.clean_smali_lines [".method foo", ".locals 1", ".end method"]).1
            (fun l => l == ".method foo") true).1
          ((SmaliPatch.find_method_range
            (SmaliPatch.clean_smali_lines [".method foo", ".locals 1", ".end method"]).1
            (fun l => l == ".method foo") true).2 + 1))
        (SmaliPatch.patchContextClean [(OpTag.ctx, ".locals 1")]) ≠ -1 :=
  patch_action_signature_scoping [".method foo", ".locals 1", ".end method"]
    (fun l => l == ".method foo") [(OpTag.ctx, ".locals 1")] (by decide)

/-- C4 counterexample: the representative context+delete+add mix of the
specification (Scenario A).  The first application succeeds, but applying
the same action to its own output fails outright (`none`, i.e. a hunk
failure) instead of succeeding with unchanged output: the Delete line is
part of the fingerprint and is no longer present. -/
theorem reapply_patch_counterexample :
    PatchHelper.apply_patch [".locals 1", "const/4 v0, 0x1", "return-void"]
      [(OpTag.ctx, ".locals 1"), (OpTag.del, "const/4 v0, 0x1"),
       (OpTag.add, "const/4 v0, 0x2"), (OpTag.ctx, "return-void")] false
      = some [".locals 1", "const/4 v0, 0x2", "return-void"]
    ∧ PatchHelper.apply_patch [".locals 1", "const/4 v0, 0x2", "return-void"]
        [(OpTag.ctx, ".locals 1"), (OpTag.del, "const/4 v0, 0x1"),
         (OpTag.add, "const/4 v0, 0x2"), (OpTag.ctx, "return-void")] false = none :=
  ⟨by decide, by decide⟩

/-- C4 (amended): idempotence holds only for PATCH actions all of whose
operations are Context operations: a successful application returns the
buffer unchanged, so re-applying the action succeeds with the same
output and the file-level result is reported as already up to date
(`skipped`).  Actions containing Add or Delete operations need not be
idempotent (see the counterexample). -/
theorem all_context_patch_idempotent (lines out : List String)
    (ops : List PatchOperation) (ns : Bool)
    (hctx : ∀ o ∈ ops, o.1 = OpTag.ctx)
    (h : PatchHelper.apply_patch lines ops ns = some out) :
    out = lines
    ∧ PatchHelper.apply_patch out ops ns = some out
    ∧ PatchHelper.apply_file_patch out [PatchHelper.PHAction.patchA none ops] ns
      = (PatchHelper.ApplyResult.skipped, none) := by
  have hout : out = lines := by
    rw [PatchHelper.apply_patch] at h
    by_cases hfp : PatchHelper.fingerprintOf ops ns = []
    · rw [if_pos hfp] at h
      exact absurd h (by simp)
    · rw [if_neg hfp] at h
      cases hfs : PatchHelper.findMatchStart lines (PatchHelper.fingerprintOf ops ns) ns with
      | none => rw [hfs] at h; exact absurd h (by simp)
      | some i =>
        rw [hfs] at h
        simp only [Option.map_eq_some'] at h
        obtain ⟨r, hap, hr⟩ := h
        have hid := applyOps_all_ctx_id ns ops hctx _ _ hap
        rw [← hr, hid, List.take_append_drop]
  subst hout
  refine ⟨rfl, h, ?_⟩
  simp only [PatchHelper.apply_file_patch, PatchHelper.applyActions,
    PatchHelper.applyPHAction, h]
  simp

/-- C4 witness: the amended statement at a concrete all-context input. -/
theorem all_context_patch_idempotent_witness :
    (["a"] : List String) = ["a"]
    ∧ PatchHelper.apply_patch ["a"] [(OpTag.ctx, "a")] false = some ["a"]
    ∧ PatchHelper.apply_file_patch ["a"]
        [PatchHelper.PHAction.patchA none [(OpTag.ctx, "a")]] false
      = (PatchHelper.ApplyResult.skipped, none) :=
  all_context_patch_idempotent ["a"] ["a"] [(OpTag.ctx, "a")] false (by decide) (by decide)

/-- C6: when an action of a FileEdit patch fails after some prefix of
actions has been applied in memory, the whole file is reported as a hunk
failure and nothing is written to disk (the written-content component of
the model is `none`); the remaining actions after the failing one play no
role in the result. -/
theorem file_patch_failure_writes_nothing (ns : Bool) (original buf : List String)
    (pre post : List PatchHelper.PHAction) (a : PatchHelper.PHAction)
    (h1 : PatchHelper.applyActions ns pre original = some buf)
    (h2 : PatchHelper.applyPHAction buf ns a = none) :
    PatchHelper.apply_file_patch original (pre ++ a :: post) ns
      = (PatchHelper.ApplyResult.hunk_failed, none) := by
  have hall : PatchHelper.applyActions ns (pre ++ a :: post) original = none := by
    rw [applyActions_append, h1]
    simp [PatchHelper.applyActions, h2]
  simp only [PatchHelper.apply_file_patch, hall]

/-- C6 witness: a two-action patch whose first action fails; the result
is a hunk failure with no write. -/
theorem file_patch_failure_writes_nothing_witness :
    PatchHelper.apply_file_patch ["a"]
      [PatchHelper.PHAction.patchA none [], PatchHelper.PHAction.createMethod ["x"]] false
      = (PatchHelper.ApplyResult.hunk_failed, none) :=
  file_patch_failure_writes_nothing false ["a"] ["a"] []
    [PatchHelper.PHAction.createMethod ["x"]] (PatchHelper.PHAction.patchA none [])
    (by decide) (by decide)

/-- C10: when an anchored PATCH action succeeds, the matched hunk
location is the least target index at which the normalized fingerprint
matches (no earlier index matches), and every target line strictly
before that index is preserved verbatim, in order, as a prefix of the
output buffer. -/
theorem patch_first_match_prefix_preserved (lines : List String)
    (ops : List PatchOperation) (ns : Bool) (out : List String)
    (h : PatchHelper.apply_patch lines ops ns = some out) :
    ∃ i, PatchHelper.findMatchStart lines (PatchHelper.fingerprintOf ops ns) ns = some i
      ∧ PatchHelper.fpMatchAux ns (lines.drop i) (PatchHelper.fingerprintOf ops ns) = true
      ∧ (∀ j, j < i →
          PatchHelper.fpMatchAux ns (lines.drop j) (PatchHelper.fingerprintOf ops ns) = false)
      ∧ lines.take i <+: out := by
  rw [PatchHelper.apply_patch] at h
  by_cases hfp : PatchHelper.fingerprintOf ops ns = []
  · rw [if_pos hfp] at h
    exact absurd h (by simp)
  · rw [if_neg hfp] at h
    cases hfs : PatchHelper.findMatchStart lines (PatchHelper.fingerprintOf ops ns) ns with
    | none => rw [hfs] at h; exact absurd h (by simp)
    | some i =>
      rw [hfs] at h
      simp only [Option.map_eq_some'] at h
      obtain ⟨r, _, hr⟩ := h
      obtain ⟨hq, _, hmin⟩ := scanFrom_spec _ lines.length 0 i hfs
      refine ⟨i, rfl, hq, fun j hj => hmin j (Nat.zero_le j) hj, ?_⟩
      rw [← hr]
      exact List.prefix_append _ _

/-- C10 witness: the theorem at a concrete successful application whose
match is at index 1. -/
theorem patch_first_match_prefix_preserved_witness :
    ∃ i, PatchHelper.findMatchStart ["x", "a", "b"]
          (PatchHelper.fingerprintOf [(OpTag.ctx, "a")] false) false = some i
      ∧ PatchHelper.fpMatchAux false (["x", "a", "b"].drop i)
          (PatchHelper.fingerprintOf [(OpTag.ctx, "a")] false) = true
      ∧ (∀ j, j < i →
          PatchHelper.fpMatchAux false (["x", "a", "b"].drop j)
            (PatchHelper.fingerprintOf [(OpTag.ctx, "a")] false) = false)
      ∧ ["x", "a", "b"].take i <+: ["x", "a", "b"] :=
  patch_first_match_prefix_preserved ["x", "a", "b"] [(OpTag.ctx, "a")] false
    ["x", "a", "b"] (by decide)
